import Mathlib

/-!
Shallow embedding of the raw-terminal input engine of `src/lib/client.js`:
the multi-line line editor `getMultiLineInput` (its `onData` listener) and
the menu key handler of `startFileModeInteractive` (its `onKeyPress`
listener).

JavaScript strings are modelled as lists of UTF-16 code units
(`List Nat`); the `data` chunks delivered to the listeners are likewise
lists of code units (the source calls `chunk.toString()` and walks it with
`charCodeAt`).  Only the writes that `getMultiLineInput` performs on
`process.stdout` are modelled (as `OutTok` tokens); `console.log`-style UI
messages emitted through `BrahmaUI` are not part of the engine state.
The decoded logical events of the spec's `RawByteDecoder` are recorded in
an `events` trace: each branch of the source loop appends the event tag
the specification assigns to that branch.
-/

namespace Brahma

/-- The WhiteSpace and LineTerminator code units stripped by JavaScript
`String.prototype.trim` (code-unit level). -/
def isJsWs (c : Nat) : Bool :=
  c == 9 || c == 10 || c == 11 || c == 12 || c == 13 || c == 32 ||
  c == 160 || c == 0x1680 || (0x2000 ≤ c && c ≤ 0x200A) ||
  c == 0x2028 || c == 0x2029 || c == 0x202F || c == 0x205F ||
  c == 0x3000 || c == 0xFEFF

/-- Strip leading JavaScript whitespace code units. -/
def jsTrimLeft : List Nat → List Nat
  | [] => []
  | c :: r => if isJsWs c then jsTrimLeft r else c :: r

/-- JavaScript `s.trim()`: strip leading and trailing whitespace. -/
def jsTrim (s : List Nat) : List Nat :=
  (jsTrimLeft ((jsTrimLeft s).reverse)).reverse

/-- Code units of a string literal (all characters used are in the BMP, so
scalar values coincide with UTF-16 code units). -/
def strCodes (s : String) : List Nat :=
  s.data.map Char.toNat

/-- Logical input events, as the specification's `RawByteDecoder` labels
the branches of the `onData` loop. -/
inductive InputEvent where
  | insertChar (c : Nat)
  | newLine
  | submit
  | backspace
  | cursorLeft
  | cursorRight
  | cursorUp
  | cursorDown
  | cancel
  deriving DecidableEq, Repr

/-- One `process.stdout.write` call of `getMultiLineInput`, with the data
that varies between calls as arguments. -/
inductive OutTok where
  /-- `this.ui.getUserPrompt()` (initial prompt display). -/
  | userPrompt
  /-- `"\n" + this.ui.getUserPrompt()` (absorbed empty submit). -/
  | promptRedisplay
  /-- `"\n"` written just before `resolve`. -/
  | newlineOut
  /-- `"\n  > "` continuation prompt after a line feed. -/
  | contPrompt
  /-- `"\b\x1b[K" + tail` backspace repaint, `tail` the rewritten suffix. -/
  | bsRepaint (tail : List Nat)
  /-- `char + tail` echo of an inserted character plus rewritten suffix. -/
  | echo (c : Nat) (tail : List Nat)
  /-- `"\x1b[" + n + "D"` cursor moved left by `n` columns. -/
  | moveBack (n : Nat)
  /-- `"\x1b[D"` (left arrow echo). -/
  | curLeft
  /-- `"\x1b[C"` (right arrow echo). -/
  | curRight
  deriving DecidableEq, Repr

/-- The closure state of `getMultiLineInput`: `inputBuffer` (committed
lines joined with LF, exactly the JS string), `currentLine`, `cursorPos`,
the raw-mode flag of `process.stdin` together with the saved
`originalRawMode`, plus the observation traces. -/
structure EditState where
  inputBuffer : List Nat
  currentLine : List Nat
  cursorPos : Nat
  rawMode : Bool
  originalRaw : Bool
  output : List OutTok
  events : List InputEvent
  deriving DecidableEq, Repr

/-- Result of feeding bytes to the listener: still listening, `resolve`d
with a value, or `process.exit(0)` on Ctrl+C. -/
inductive Outcome where
  | cont (st : EditState)
  | resolved (st : EditState) (v : List Nat)
  | exited (st : EditState)
  deriving DecidableEq, Repr

/-- The state carried by an outcome. -/
def Outcome.state : Outcome → EditState
  | .cont st => st
  | .resolved st _ => st
  | .exited st => st

/-- The value passed to `resolve`, if any. -/
def Outcome.result : Outcome → Option (List Nat)
  | .resolved _ v => some v
  | _ => none

/-- Whether the outcome is the Ctrl+C `process.exit(0)` path. -/
def Outcome.isExited : Outcome → Bool
  | .exited _ => true
  | _ => false

/-- `inputBuffer` after appending `currentLine`, exactly as the source
writes it: `inputBuffer = currentLine` when the buffer is empty, else
`inputBuffer += "\n" + currentLine`. -/
def commitLine (st : EditState) : List Nat :=
  if st.inputBuffer = [] then st.currentLine
  else st.inputBuffer ++ 10 :: st.currentLine

/-- The `inputBuffer` value after the Enter branch has (conditionally)
appended the current line: the line is appended exactly when
`currentLine.trim() !== "" || inputBuffer !== ""`. -/
def submitBuffer (st : EditState) : List Nat :=
  if jsTrim st.currentLine ≠ [] ∨ st.inputBuffer ≠ [] then commitLine st
  else st.inputBuffer

/-- Ctrl+C branch: `cleanup()` restores the saved raw mode and records the
`Cancel` event (`this.ui.showGoodbye()` and `this.cleanup()` are UI and
temp-directory work outside the engine), then `process.exit(0)`. -/
def cancelApply (st : EditState) : EditState :=
  { st with rawMode := st.originalRaw, events := st.events ++ [.cancel] }

/-- Enter branch, resolving case: `cleanup()` restores raw mode, a newline
is written, and `resolve(inputBuffer.trim())` fires. -/
def submitResolve (st : EditState) : EditState :=
  { st with inputBuffer := submitBuffer st, rawMode := st.originalRaw,
            output := st.output ++ [.newlineOut],
            events := st.events ++ [.submit] }

/-- Enter branch, absorbed case: empty input, the line state is reset and
the prompt redisplayed. -/
def submitAbsorb (st : EditState) : EditState :=
  { st with inputBuffer := submitBuffer st, currentLine := [],
            cursorPos := 0,
            output := st.output ++ [.promptRedisplay],
            events := st.events ++ [.submit] }

/-- Line-feed branch: commit the current line (even if empty), start a new
empty line, print the continuation prompt. -/
def newLineApply (st : EditState) : EditState :=
  { st with inputBuffer := commitLine st, currentLine := [], cursorPos := 0,
            output := st.output ++ [.contPrompt],
            events := st.events ++ [.newLine] }

/-- Backspace branch: guarded by
`currentLine.length > 0 && cursorPos > 0`; removes the character before
the cursor and repaints, otherwise does nothing. -/
def backspaceApply (st : EditState) : EditState :=
  if 0 < st.currentLine.length ∧ 0 < st.cursorPos then
    let cl := st.currentLine.take (st.cursorPos - 1) ++
              st.currentLine.drop st.cursorPos
    let cp := st.cursorPos - 1
    let mb := cl.length - cp
    { st with currentLine := cl, cursorPos := cp,
              output := st.output ++ [.bsRepaint (cl.drop cp)] ++
                        (if 0 < mb then [.moveBack mb] else []),
              events := st.events ++ [.backspace] }
  else
    { st with events := st.events ++ [.backspace] }

/-- Printable-character branch: splice the character in at the cursor,
advance the cursor, echo it plus the tail and reposition. -/
def insertApply (st : EditState) (c : Nat) : EditState :=
  let cl := st.currentLine.take st.cursorPos ++ c ::
            st.currentLine.drop st.cursorPos
  let cp := st.cursorPos + 1
  let mb := cl.length - cp
  { st with currentLine := cl, cursorPos := cp,
            output := st.output ++ [.echo c (cl.drop cp)] ++
                      (if 0 < mb then [.moveBack mb] else []),
            events := st.events ++ [.insertChar c] }

/-- Left-arrow case of the ESC switch: move left if `cursorPos > 0`. -/
def cursorLeftApply (st : EditState) : EditState :=
  if 0 < st.cursorPos then
    { st with cursorPos := st.cursorPos - 1,
              output := st.output ++ [.curLeft],
              events := st.events ++ [.cursorLeft] }
  else
    { st with events := st.events ++ [.cursorLeft] }

/-- Right-arrow case of the ESC switch: move right if inside the line. -/
def cursorRightApply (st : EditState) : EditState :=
  if st.cursorPos < st.currentLine.length then
    { st with cursorPos := st.cursorPos + 1,
              output := st.output ++ [.curRight],
              events := st.events ++ [.cursorRight] }
  else
    { st with events := st.events ++ [.cursorRight] }

/-- Up-arrow case: reserved for history navigation, no effect. -/
def cursorUpApply (st : EditState) : EditState :=
  { st with events := st.events ++ [.cursorUp] }

/-- Down-arrow case: reserved for history navigation, no effect. -/
def cursorDownApply (st : EditState) : EditState :=
  { st with events := st.events ++ [.cursorDown] }

/-- The `onData` listener of `getMultiLineInput`, iterating over the code
units of one chunk (`for (let i = 0; i < input.length; i++)`); recursion
position in the list replaces the index `i`. -/
def processBytes : EditState → List Nat → Outcome
  | st, [] => .cont st
  | st, c :: rest =>
    if c = 3 then
      -- Ctrl+C: hard interrupt, the rest of the chunk is never scanned
      .exited (cancelApply st)
    else if c = 13 then
      -- Enter: a directly following LF is consumed as the same keystroke
      if jsTrim (submitBuffer st) ≠ [] then
        .resolved (submitResolve st) (jsTrim (submitBuffer st))
      else
        processBytes (submitAbsorb st)
          (if rest.head? = some 10 then rest.tail else rest)
    else if c = 10 then
      processBytes (newLineApply st) rest
    else if c = 8 ∨ c = 127 then
      processBytes (backspaceApply st) rest
    else if 32 ≤ c ∧ c ≤ 126 then
      processBytes (insertApply st c) rest
    else if c = 27 then
      -- ESC sequence: recognized only when two more code units remain in
      -- this chunk (i + 2 < input.length) and the next one is "["
      if 2 ≤ rest.length ∧ rest.getD 0 0 = 91 then
        let key := rest.getD 1 0
        if key = 68 then processBytes (cursorLeftApply st) (rest.drop 2)
        else if key = 67 then processBytes (cursorRightApply st) (rest.drop 2)
        else if key = 65 then processBytes (cursorUpApply st) (rest.drop 2)
        else if key = 66 then processBytes (cursorDownApply st) (rest.drop 2)
        else processBytes st (rest.drop 2)
      else
        processBytes st rest
    else
      processBytes st rest
  termination_by _ l => l.length
  decreasing_by
    all_goals simp [List.length_drop]
    all_goals first
      | omega
      | (split; all_goals simp [List.length_tail]; all_goals omega)

/-- The state of the closure right after `getMultiLineInput` enters raw
mode and prints the prompt; `orig` is the saved `originalRawMode`. -/
def freshState (orig : Bool) : EditState :=
  { inputBuffer := [], currentLine := [], cursorPos := 0,
    rawMode := true, originalRaw := orig,
    output := [.userPrompt], events := [] }

/-- A sample mid-session state (current line `"abc"`, cursor after the
`"b"`), used to instantiate hypothesis-bearing theorems at a concrete
input. -/
def sampleState : EditState :=
  { inputBuffer := [], currentLine := [97, 98, 99], cursorPos := 2,
    rawMode := true, originalRaw := false,
    output := [.userPrompt], events := [] }

/-- Feed a sequence of `data` chunks to the listener; a resolve or exit
removes the listener, so later chunks are not processed. -/
def processChunks : EditState → List (List Nat) → Outcome
  | st, [] => .cont st
  | st, chunk :: chunks =>
    match processBytes st chunk with
    | .cont st' => processChunks st' chunks
    | r => r

/-! ## Menu-selection engine of `startFileModeInteractive` -/

/-- One entry of the `options` array. -/
structure MenuOption where
  key : List Nat
  label : List Nat
  description : List Nat
  deriving DecidableEq, Repr

/-- The concrete `options` array of `startFileModeInteractive`. -/
def fileModeOptions : List MenuOption :=
  [ { key := strCodes "1", label := strCodes "Process Input",
      description := strCodes "Send input.txt content to AI" },
    { key := strCodes "2", label := strCodes "Exit Brahma",
      description := strCodes "Close the application" } ]

/-- JavaScript string `<` (code-unit lexicographic order). -/
def jsStrLt : List Nat → List Nat → Bool
  | [], [] => false
  | [], _ :: _ => true
  | _ :: _, [] => false
  | a :: as, b :: bs =>
    if a < b then true else if b < a then false else jsStrLt as bs

/-- JavaScript string `<=`: `a <= b` is the negation of `b < a`. -/
def jsStrLe (a b : List Nat) : Bool := !jsStrLt b a

/-- Code units of `String(n)` for a natural number `n`. -/
def natToDec (n : Nat) : List Nat := (Nat.toDigits 10 n).map Char.toNat

/-- New `selectedIndex` on an up arrow:
`selectedIndex > 0 ? selectedIndex - 1 : options.length - 1`. -/
def menuUpIdx (n i : Nat) : Nat := if 0 < i then i - 1 else n - 1

/-- New `selectedIndex` on a down arrow:
`selectedIndex < options.length - 1 ? selectedIndex + 1 : 0`. -/
def menuDownIdx (n i : Nat) : Nat := if i < n - 1 then i + 1 else 0

/-- Result of one `onKeyPress` call: either keep listening with a
(possibly updated) `selectedIndex`, or resolve with a choice string. -/
inductive MenuAct where
  | keep (selectedIndex : Nat)
  | chosen (choice : List Nat)
  deriving DecidableEq, Repr

/-- The `onKeyPress` listener of `startFileModeInteractive`: `key` is one
chunk, compared against whole-string constants exactly as the source does. -/
def menuKey (options : List MenuOption) (selectedIndex : Nat)
    (key : List Nat) : MenuAct :=
  if key = [3] then
    .chosen (strCodes "exit")
  else if key = [27, 91, 65] then
    .keep (menuUpIdx options.length selectedIndex)
  else if key = [27, 91, 66] then
    .keep (menuDownIdx options.length selectedIndex)
  else if key = [13] ∨ key = [10] then
    .chosen ((options.getD selectedIndex
      { key := [], label := [], description := [] }).key)
  else if jsStrLe [49] key ∧ jsStrLe key (natToDec options.length) then
    .chosen key
  else
    .keep selectedIndex

/-- Feed key chunks to the menu loop until one resolves a choice. -/
def menuRun (options : List MenuOption) (i : Nat) :
    List (List Nat) → Option (List Nat)
  | [] => none
  | k :: ks =>
    match menuKey options i k with
    | .chosen c => some c
    | .keep i' => menuRun options i' ks

/-! ## Unfolding equations of `processBytes`, one per decoding branch -/

theorem processBytes_nil (st : EditState) : processBytes st [] = .cont st := by
  simp [processBytes]

theorem processBytes_cancel (st : EditState) (rest : List Nat) :
    processBytes st (3 :: rest) = .exited (cancelApply st) := by
  simp [processBytes]

theorem processBytes_cr (st : EditState) (rest : List Nat) :
    processBytes st (13 :: rest) =
      if jsTrim (submitBuffer st) ≠ [] then
        .resolved (submitResolve st) (jsTrim (submitBuffer st))
      else
        processBytes (submitAbsorb st)
          (if rest.head? = some 10 then rest.tail else rest) := by
  simp only [processBytes]
  norm_num

theorem processBytes_lf (st : EditState) (rest : List Nat) :
    processBytes st (10 :: rest) = processBytes (newLineApply st) rest := by
  simp only [processBytes]
  norm_num

theorem processBytes_backspace (st : EditState) {c : Nat} (h : c = 8 ∨ c = 127)
    (rest : List Nat) :
    processBytes st (c :: rest) = processBytes (backspaceApply st) rest := by
  rcases h with rfl | rfl
  all_goals simp only [processBytes]
  all_goals norm_num

theorem processBytes_insert (st : EditState) {c : Nat} (h1 : 32 ≤ c)
    (h2 : c ≤ 126) (rest : List Nat) :
    processBytes st (c :: rest) = processBytes (insertApply st c) rest := by
  simp only [processBytes]
  rw [if_neg (by omega), if_neg (by omega), if_neg (by omega),
      if_neg (by omega), if_pos ⟨h1, h2⟩]

theorem processBytes_esc (st : EditState) (rest : List Nat) :
    processBytes st (27 :: rest) =
      if 2 ≤ rest.length ∧ rest.getD 0 0 = 91 then
        if rest.getD 1 0 = 68 then
          processBytes (cursorLeftApply st) (rest.drop 2)
        else if rest.getD 1 0 = 67 then
          processBytes (cursorRightApply st) (rest.drop 2)
        else if rest.getD 1 0 = 65 then
          processBytes (cursorUpApply st) (rest.drop 2)
        else if rest.getD 1 0 = 66 then
          processBytes (cursorDownApply st) (rest.drop 2)
        else
          processBytes st (rest.drop 2)
      else
        processBytes st rest := by
  simp only [processBytes]
  norm_num

theorem processBytes_other (st : EditState) {c : Nat} (h3 : c ≠ 3)
    (h13 : c ≠ 13) (h10 : c ≠ 10) (hbs : ¬(c = 8 ∨ c = 127))
    (hpr : ¬(32 ≤ c ∧ c ≤ 126)) (h27 : c ≠ 27) (rest : List Nat) :
    processBytes st (c :: rest) = processBytes st rest := by
  simp only [processBytes]
  rw [if_neg h3, if_neg h13, if_neg h10, if_neg hbs, if_neg hpr, if_neg h27]

theorem processChunks_nil (st : EditState) : processChunks st [] = .cont st :=
  rfl

theorem processChunks_cons (st : EditState) (chunk : List Nat)
    (chunks : List (List Nat)) :
    processChunks st (chunk :: chunks) =
      match processBytes st chunk with
      | .cont st' => processChunks st' chunks
      | r => r :=
  rfl

/-! ## Properties of `jsTrim` -/

theorem jsTrimLeft_eq_nil_iff {s : List Nat} :
    jsTrimLeft s = [] ↔ ∀ c ∈ s, isJsWs c = true := by
  induction s with
  | nil => simp [jsTrimLeft]
  | cons c r ih =>
    by_cases h : isJsWs c
    · simp [jsTrimLeft, h, ih]
    · simp [jsTrimLeft, h]

theorem jsTrimLeft_head {s : List Nat} {c : Nat} {r : List Nat}
    (h : jsTrimLeft s = c :: r) : isJsWs c = false := by
  induction s with
  | nil => simp [jsTrimLeft] at h
  | cons a as ih =>
    by_cases ha : isJsWs a
    · rw [jsTrimLeft, if_pos ha] at h
      exact ih h
    · rw [jsTrimLeft, if_neg ha] at h
      cases h
      exact Bool.eq_false_iff.mpr ha

theorem jsTrimLeft_decomp (s : List Nat) :
    ∃ p, p ++ jsTrimLeft s = s ∧ ∀ c ∈ p, isJsWs c = true := by
  induction s with
  | nil => exact ⟨[], rfl, by simp⟩
  | cons a as ih =>
    by_cases ha : isJsWs a
    · obtain ⟨p, hp, hws⟩ := ih
      refine ⟨a :: p, ?_, ?_⟩
      · rw [jsTrimLeft, if_pos ha, List.cons_append, hp]
      · intro c hc
        rcases List.mem_cons.mp hc with rfl | hc
        · exact ha
        · exact hws c hc
    · exact ⟨[], by rw [jsTrimLeft, if_neg ha, List.nil_append], by simp⟩

theorem jsTrimLeft_idem (s : List Nat) :
    jsTrimLeft (jsTrimLeft s) = jsTrimLeft s := by
  rcases h : jsTrimLeft s with _ | ⟨c, r⟩
  · rfl
  · rw [jsTrimLeft, if_neg (by simp [jsTrimLeft_head h])]

theorem jsTrim_eq_nil_iff {s : List Nat} :
    jsTrim s = [] ↔ ∀ c ∈ s, isJsWs c = true := by
  rw [jsTrim, List.reverse_eq_nil_iff, jsTrimLeft_eq_nil_iff]
  constructor
  · intro h c hc
    obtain ⟨p, hp, hws⟩ := jsTrimLeft_decomp s
    rcases (List.mem_append.mp (hp ▸ hc)) with hm | hm
    · exact hws c hm
    · exact h c (List.mem_reverse.mpr hm)
  · intro h c hc
    obtain ⟨p, hp, _⟩ := jsTrimLeft_decomp s
    exact h c (hp ▸ List.mem_append_right p (List.mem_reverse.mp hc))

theorem jsTrim_ne_nil_iff {s : List Nat} :
    jsTrim s ≠ [] ↔ ∃ c ∈ s, isJsWs c = false := by
  rw [Ne, jsTrim_eq_nil_iff]
  push_neg
  simp [Bool.not_eq_true]

theorem jsTrim_head {s : List Nat} {c : Nat} {r : List Nat}
    (h : jsTrim s = c :: r) : isJsWs c = false := by
  obtain ⟨p, hp, _⟩ := jsTrimLeft_decomp ((jsTrimLeft s).reverse)
  have hrev : jsTrim s ++ p.reverse = jsTrimLeft s := by
    have := congrArg List.reverse hp
    simpa [jsTrim] using this
  rw [h] at hrev
  exact jsTrimLeft_head hrev.symm

theorem jsTrim_idem (s : List Nat) : jsTrim (jsTrim s) = jsTrim s := by
  rcases h : jsTrim s with _ | ⟨c, r⟩
  · rfl
  · have hc := jsTrim_head h
    have h1 : jsTrimLeft (c :: r) = c :: r := by
      rw [jsTrimLeft, if_neg (by simp [hc])]
    have h2 : (c :: r).reverse = jsTrimLeft ((jsTrimLeft s).reverse) := by
      rw [← h]
      simp [jsTrim]
    have hcalc : jsTrim (c :: r) = jsTrim s :=
      calc jsTrim (c :: r)
          = (jsTrimLeft ((c :: r).reverse)).reverse := by rw [jsTrim, h1]
        _ = (jsTrimLeft (jsTrimLeft ((jsTrimLeft s).reverse))).reverse := by
            rw [h2]
        _ = (jsTrimLeft ((jsTrimLeft s).reverse)).reverse := by
            rw [jsTrimLeft_idem]
        _ = jsTrim s := rfl
    rw [h] at hcalc
    exact hcalc

theorem jsTrim_exists_nonWs {s : List Nat} (h : jsTrim s ≠ []) :
    ∃ c ∈ jsTrim s, isJsWs c = false := by
  rcases hh : jsTrim s with _ | ⟨c, r⟩
  · exact absurd hh h
  · exact ⟨c, List.mem_cons_self c r, jsTrim_head hh⟩

theorem jsTrim_commitLine_ne_nil_iff (st : EditState) :
    jsTrim (commitLine st) ≠ [] ↔
      (∃ c ∈ st.currentLine, isJsWs c = false) ∨
      (∃ c ∈ st.inputBuffer, isJsWs c = false) := by
  by_cases h : st.inputBuffer = []
  · simp [commitLine, h, jsTrim_ne_nil_iff]
  · rw [commitLine, if_neg h, jsTrim_ne_nil_iff]
    constructor
    · rintro ⟨c, hc, hws⟩
      rcases List.mem_append.mp hc with hm | hm
      · exact Or.inr ⟨c, hm, hws⟩
      · rcases List.mem_cons.mp hm with rfl | hm
        · simp [isJsWs] at hws
        · exact Or.inl ⟨c, hm, hws⟩
    · rintro (⟨c, hc, hws⟩ | ⟨c, hc, hws⟩)
      · exact ⟨c, List.mem_append_right _ (List.mem_cons_of_mem _ hc), hws⟩
      · exact ⟨c, List.mem_append_left _ hc, hws⟩

/-! ## The cursor-in-bounds invariant -/

theorem cursorOk_backspaceApply {st : EditState}
    (h : st.cursorPos ≤ st.currentLine.length) :
    (backspaceApply st).cursorPos ≤ (backspaceApply st).currentLine.length := by
  unfold backspaceApply
  split
  · simp only [List.length_append, List.length_take, List.length_drop]
    omega
  · simpa using h

theorem cursorOk_insertApply {st : EditState} (c : Nat)
    (h : st.cursorPos ≤ st.currentLine.length) :
    (insertApply st c).cursorPos ≤ (insertApply st c).currentLine.length := by
  unfold insertApply
  simp only [List.length_append, List.length_take, List.length_cons,
    List.length_drop]
  omega

theorem cursorOk_cursorLeftApply {st : EditState}
    (h : st.cursorPos ≤ st.currentLine.length) :
    (cursorLeftApply st).cursorPos ≤ (cursorLeftApply st).currentLine.length := by
  unfold cursorLeftApply
  split
  · simp only
    omega
  · simpa using h

theorem cursorOk_cursorRightApply {st : EditState}
    (h : st.cursorPos ≤ st.currentLine.length) :
    (cursorRightApply st).cursorPos ≤
      (cursorRightApply st).currentLine.length := by
  unfold cursorRightApply
  split
  · simp only
    omega
  · simpa using h

theorem cursorOk_processBytes_aux :
    ∀ (n : Nat) (l : List Nat) (st : EditState), l.length ≤ n →
      st.cursorPos ≤ st.currentLine.length →
      (processBytes st l).state.cursorPos ≤
        (processBytes st l).state.currentLine.length := by
  intro n
  induction n with
  | zero =>
    intro l st hl hInv
    obtain rfl : l = [] := List.eq_nil_of_length_eq_zero (Nat.le_zero.mp hl)
    simpa [processBytes_nil, Outcome.state] using hInv
  | succ n ih =>
    intro l st hl hInv
    rcases l with _ | ⟨c, rest⟩
    · simpa [processBytes_nil, Outcome.state] using hInv
    · replace hl : rest.length ≤ n := by
        simpa [Nat.succ_le_succ_iff] using hl
      by_cases h3 : c = 3
      · subst h3
        rw [processBytes_cancel]
        simpa [Outcome.state, cancelApply] using hInv
      by_cases h13 : c = 13
      · subst h13
        rw [processBytes_cr]
        split
        · simpa [Outcome.state, submitResolve] using hInv
        · refine ih _ _ ?_ (by simp [submitAbsorb])
          have htail : (if rest.head? = some 10 then rest.tail
              else rest).length ≤ rest.length := by
            split
            · cases rest
              all_goals simp
            · exact Nat.le_refl _
          omega
      by_cases h10 : c = 10
      · subst h10
        rw [processBytes_lf]
        exact ih _ _ hl (by simp [newLineApply])
      by_cases hbs : c = 8 ∨ c = 127
      · rw [processBytes_backspace st hbs]
        exact ih _ _ hl (cursorOk_backspaceApply hInv)
      by_cases hpr : 32 ≤ c ∧ c ≤ 126
      · rw [processBytes_insert st hpr.1 hpr.2]
        exact ih _ _ hl (cursorOk_insertApply c hInv)
      by_cases h27 : c = 27
      · subst h27
        rw [processBytes_esc]
        have hdrop : (rest.drop 2).length ≤ n := by
          simp only [List.length_drop]
          omega
        split
        · split
          · exact ih _ _ hdrop (cursorOk_cursorLeftApply hInv)
          · split
            · exact ih _ _ hdrop (cursorOk_cursorRightApply hInv)
            · split
              · exact ih _ _ hdrop (by simpa [cursorUpApply] using hInv)
              · split
                · exact ih _ _ hdrop (by simpa [cursorDownApply] using hInv)
                · exact ih _ _ hdrop hInv
        · exact ih _ _ hl hInv
      · rw [processBytes_other st h3 h13 h10 hbs hpr h27]
        exact ih _ _ hl hInv

theorem cursorOk_processBytes (l : List Nat) (st : EditState)
    (h : st.cursorPos ≤ st.currentLine.length) :
    (processBytes st l).state.cursorPos ≤
      (processBytes st l).state.currentLine.length :=
  cursorOk_processBytes_aux l.length l st (Nat.le_refl _) h

theorem cursorOk_processChunks :
    ∀ (chunks : List (List Nat)) (st : EditState),
      st.cursorPos ≤ st.currentLine.length →
      (processChunks st chunks).state.cursorPos ≤
        (processChunks st chunks).state.currentLine.length := by
  intro chunks
  induction chunks with
  | nil =>
    intro st h
    simpa [processChunks_nil, Outcome.state] using h
  | cons chunk chunks ih =>
    intro st h
    rw [processChunks_cons]
    rcases hout : processBytes st chunk with st' | ⟨st', v⟩ | st'
    · have := cursorOk_processBytes chunk st h
      rw [hout] at this
      exact ih st' this
    · have := cursorOk_processBytes chunk st h
      rw [hout] at this
      exact this
    · have := cursorOk_processBytes chunk st h
      rw [hout] at this
      exact this

/-! ## Claim C4 -/

/-- C4: In every state of the line-edit buffer reachable by applying
any sequence of decoded events (equivalently, any sequence of input
chunks) to a fresh buffer, the cursor satisfies
`0 ≤ cursorPos ≤ currentLine.length` — the lower bound is inherent in the
`Nat` model, which is faithful because the source decrements `cursorPos`
only under a `cursorPos > 0` guard.  `CursorLeft` (`ESC [ D`) and
`CursorRight` (`ESC [ C`) move the cursor by ±1 clamped to
`[0, currentLine.length]`, and every other operation preserves the
bound. -/
theorem c4_cursor_in_bounds :
    (∀ (orig : Bool) (chunks : List (List Nat)),
      (processChunks (freshState orig) chunks).state.cursorPos ≤
        (processChunks (freshState orig) chunks).state.currentLine.length)
    ∧ (∀ st : EditState, st.cursorPos ≤ st.currentLine.length →
        (processBytes st [27, 91, 68]).state.cursorPos = st.cursorPos - 1 ∧
        (processBytes st [27, 91, 67]).state.cursorPos =
          min (st.cursorPos + 1) st.currentLine.length) := by
  constructor
  · intro orig chunks
    exact cursorOk_processChunks chunks _ (by simp [freshState])
  · intro st h
    constructor
    · have heq : processBytes st [27, 91, 68] =
          processBytes (cursorLeftApply st) [] := by
        rw [processBytes_esc]
        simp
      rw [heq, processBytes_nil]
      simp only [Outcome.state]
      unfold cursorLeftApply
      split
      · simp
      · simp only
        omega
    · have heq : processBytes st [27, 91, 67] =
          processBytes (cursorRightApply st) [] := by
        rw [processBytes_esc]
        simp
      rw [heq, processBytes_nil]
      simp only [Outcome.state]
      unfold cursorRightApply
      split
      · simp only
        omega
      · simp only
        omega

/-- Witness for C4: its clamping part applied at the concrete state
`sampleState` (current line `"abc"`, cursor 2). -/
theorem c4_witness :
    (processBytes sampleState [27, 91, 68]).state.cursorPos =
        sampleState.cursorPos - 1 ∧
    (processBytes sampleState [27, 91, 67]).state.cursorPos =
        min (sampleState.cursorPos + 1) sampleState.currentLine.length :=
  c4_cursor_in_bounds.2 sampleState (by simp [sampleState])

/-! ## Claim C5 -/

/-- C5: Applying Backspace (byte 8 or 127) when `cursorPos > 0`
removes exactly the character immediately before the cursor from the
current line and decrements the cursor by one; applying it when
`cursorPos == 0` is a no-op: the current line, the committed lines
(`inputBuffer`) and the cursor are all unchanged, and no cross-line merge
with the previous committed line occurs (the committed lines are unchanged
in both cases). -/
theorem c5_backspace (st : EditState)
    (h : st.cursorPos ≤ st.currentLine.length) (c : Nat)
    (hc : c = 8 ∨ c = 127) :
    ∃ st2, processBytes st [c] = .cont st2 ∧
      st2.inputBuffer = st.inputBuffer ∧
      (0 < st.cursorPos →
        st2.currentLine = st.currentLine.take (st.cursorPos - 1) ++
          st.currentLine.drop st.cursorPos ∧
        st2.cursorPos = st.cursorPos - 1) ∧
      (st.cursorPos = 0 →
        st2.currentLine = st.currentLine ∧ st2.cursorPos = 0) := by
  refine ⟨backspaceApply st, ?_, ?_, ?_, ?_⟩
  · rw [processBytes_backspace st hc, processBytes_nil]
  · unfold backspaceApply
    split
    · rfl
    · rfl
  · intro hcp
    have hpos : 0 < st.currentLine.length ∧ 0 < st.cursorPos := ⟨by omega, hcp⟩
    simp only [backspaceApply, if_pos hpos]
    exact ⟨trivial, trivial⟩
  · intro hcp0
    have hneg : ¬(0 < st.currentLine.length ∧ 0 < st.cursorPos) := by omega
    simp only [backspaceApply, if_neg hneg]
    exact ⟨trivial, hcp0⟩

/-- Witness for C5: applied at `sampleState` (line `"abc"`, cursor 2)
with byte 127. -/
theorem c5_witness :
    ∃ st2, processBytes sampleState [127] = .cont st2 ∧
      st2.inputBuffer = sampleState.inputBuffer ∧
      (0 < sampleState.cursorPos →
        st2.currentLine = sampleState.currentLine.take
            (sampleState.cursorPos - 1) ++
          sampleState.currentLine.drop sampleState.cursorPos ∧
        st2.cursorPos = sampleState.cursorPos - 1) ∧
      (sampleState.cursorPos = 0 →
        st2.currentLine = sampleState.currentLine ∧ st2.cursorPos = 0) :=
  c5_backspace sampleState (by simp [sampleState]) 127 (Or.inr rfl)

/-! ## Claim C9 -/

theorem insert_run :
    ∀ (cs : List Nat) (st : EditState),
      (∀ c ∈ cs, 32 ≤ c ∧ c ≤ 126) →
      st.cursorPos ≤ st.currentLine.length →
      ∃ st2, processBytes st cs = .cont st2 ∧
        st2.currentLine = st.currentLine.take st.cursorPos ++ cs ++
          st.currentLine.drop st.cursorPos ∧
        st2.cursorPos = st.cursorPos + cs.length ∧
        st2.inputBuffer = st.inputBuffer := by
  intro cs
  induction cs with
  | nil =>
    intro st _ _
    exact ⟨st, processBytes_nil st, by simp, by simp, rfl⟩
  | cons c cs ih =>
    intro st hall h
    have hc := hall c (List.mem_cons_self c cs)
    rw [processBytes_insert st hc.1 hc.2]
    obtain ⟨st2, heq, hcl, hcp, hib⟩ :=
      ih (insertApply st c) (fun d hd => hall d (List.mem_cons_of_mem c hd))
        (cursorOk_insertApply c h)
    have hlen : (st.currentLine.take st.cursorPos).length = st.cursorPos := by
      simp only [List.length_take]
      omega
    refine ⟨st2, heq, ?_, ?_, ?_⟩
    · rw [hcl]
      simp only [insertApply]
      rw [show st.cursorPos + 1 =
            (st.currentLine.take st.cursorPos).length + 1 by rw [hlen]]
      rw [List.take_append, List.drop_append]
      simp
    · rw [hcp]
      simp only [insertApply, List.length_cons]
      omega
    · rw [hib]
      rfl

/-- C9: For every sequence consisting only of `InsertChar` events
(printable bytes 32–126) applied to a fresh buffer — no backspace,
newline, submit or cursor movement — the resulting current line equals
the concatenation of the inserted characters in input order, and the
cursor ends at the line's length. -/
theorem c9_insert_concat (orig : Bool) (cs : List Nat)
    (h : ∀ c ∈ cs, 32 ≤ c ∧ c ≤ 126) :
    ∃ st2, processBytes (freshState orig) cs = .cont st2 ∧
      st2.currentLine = cs ∧ st2.cursorPos = cs.length := by
  obtain ⟨st2, heq, hcl, hcp, _⟩ :=
    insert_run cs (freshState orig) h (by simp [freshState])
  refine ⟨st2, heq, ?_, ?_⟩
  · simpa [freshState] using hcl
  · simpa [freshState] using hcp

/-- Witness for C9: the two printable bytes of `"Hi"`. -/
theorem c9_witness :
    ∃ st2, processBytes (freshState false) [72, 105] = .cont st2 ∧
      st2.currentLine = [72, 105] ∧
      st2.cursorPos = ([72, 105] : List Nat).length :=
  c9_insert_concat false [72, 105] (by decide)

/-! ## Claim C1 -/

theorem submitBuffer_trim_ne_nil_iff (st : EditState) :
    jsTrim (submitBuffer st) ≠ [] ↔
      (∃ c ∈ st.currentLine, isJsWs c = false) ∨
      (∃ c ∈ st.inputBuffer, isJsWs c = false) := by
  unfold submitBuffer
  split
  · exact jsTrim_commitLine_ne_nil_iff st
  · rename_i hcond
    push_neg at hcond
    obtain ⟨h1, h2⟩ := hcond
    rw [h2]
    constructor
    · intro hcontra
      exact absurd rfl hcontra
    · rintro (⟨c, hc, hws⟩ | ⟨c, hc, _⟩)
      · rw [jsTrim_eq_nil_iff.mp h1 c hc] at hws
        exact Bool.noConfusion hws
      · exact absurd hc (List.not_mem_nil c)

theorem submitBuffer_eq_commitLine {st : EditState}
    (h : jsTrim (submitBuffer st) ≠ []) : submitBuffer st = commitLine st := by
  by_cases hcond : jsTrim st.currentLine ≠ [] ∨ st.inputBuffer ≠ []
  · rw [submitBuffer, if_pos hcond]
  · exfalso
    apply h
    push_neg at hcond
    rw [submitBuffer, if_neg (by simp [hcond.1, hcond.2]), hcond.2]
    rfl

theorem processChunks_single (st : EditState) (chunk : List Nat) :
    processChunks st [chunk] = processBytes st chunk := by
  rw [processChunks_cons]
  rcases hout : processBytes st chunk with st' | ⟨st', v⟩ | st'
  · show processChunks st' [] = Outcome.cont st'
    rw [processChunks_nil]
  · rfl
  · rfl

theorem processBytes_cr_single (st : EditState) :
    processBytes st [13] =
      if jsTrim (submitBuffer st) ≠ [] then
        .resolved (submitResolve st) (jsTrim (submitBuffer st))
      else
        .cont (submitAbsorb st) := by
  rw [processBytes_cr]
  simp [processBytes_nil]

/-- C1: Submit (CR, byte 13, in line mode) resolves the read if and
only if some content is non-blank: if the current line or any committed
line contains a non-whitespace character, the current line is committed
and the resolved value is the committed lines followed by the current
line joined with `"\n"` (which is exactly `commitLine`) and trimmed; if
every line is blank, Submit is absorbed — nothing is resolved and the
prompt is redisplayed.  Moreover the byte sequence `"Hi"`, LF, `"there"`,
CR makes the read resolve with `"Hi\nthere"`. -/
theorem c1_submit :
    (∀ st : EditState,
      ((∃ st2 v, processBytes st [13] = .resolved st2 v) ↔
        (∃ c ∈ st.currentLine, isJsWs c = false) ∨
        (∃ c ∈ st.inputBuffer, isJsWs c = false)) ∧
      (∀ st2 v, processBytes st [13] = .resolved st2 v →
        v = jsTrim (commitLine st)) ∧
      ((∀ c ∈ st.currentLine, isJsWs c = true) →
       (∀ c ∈ st.inputBuffer, isJsWs c = true) →
        ∃ st3, processBytes st [13] = .cont st3 ∧
          st3.output = st.output ++ [.promptRedisplay] ∧
          (processBytes st [13]).result = none))
    ∧ (processBytes (freshState false)
        [72, 105, 10, 116, 104, 101, 114, 101, 13]).result =
        some [72, 105, 10, 116, 104, 101, 114, 101] := by
  constructor
  · intro st
    refine ⟨?_, ?_, ?_⟩
    · rw [processBytes_cr_single]
      by_cases hres : jsTrim (submitBuffer st) ≠ []
      · rw [if_pos hres]
        exact ⟨fun _ => (submitBuffer_trim_ne_nil_iff st).mp hres,
               fun _ => ⟨_, _, rfl⟩⟩
      · rw [if_neg hres]
        constructor
        · rintro ⟨st2, v, hcontra⟩
          exact Outcome.noConfusion hcontra
        · intro hnb
          exact absurd ((submitBuffer_trim_ne_nil_iff st).mpr hnb) hres
    · intro st2 v hres
      rw [processBytes_cr_single] at hres
      by_cases hr : jsTrim (submitBuffer st) ≠ []
      · rw [if_pos hr] at hres
        injection hres with _ h2
        rw [← h2, submitBuffer_eq_commitLine hr]
      · rw [if_neg hr] at hres
        exact Outcome.noConfusion hres
    · intro hcl hib
      have hbl : ¬ jsTrim (submitBuffer st) ≠ [] := by
        intro hcontra
        rcases (submitBuffer_trim_ne_nil_iff st).mp hcontra with
          ⟨c, hc, hws⟩ | ⟨c, hc, hws⟩
        · rw [hcl c hc] at hws
          exact Bool.noConfusion hws
        · rw [hib c hc] at hws
          exact Bool.noConfusion hws
      refine ⟨submitAbsorb st, ?_, ?_, ?_⟩
      · rw [processBytes_cr_single, if_neg hbl]
      · simp [submitAbsorb]
      · rw [processBytes_cr_single, if_neg hbl]
        rfl
  · simp [processBytes, freshState, insertApply, newLineApply, submitBuffer,
      commitLine, submitResolve, jsTrim, jsTrimLeft, isJsWs, Outcome.result]

/-- Witness for C1: at `sampleState` (current line `"abc"`) Submit
resolves; at the variant whose only content is a single blank
(current line `" "`, nothing committed) Submit is absorbed. -/
theorem c1_witness :
    (∃ st2 v, processBytes sampleState [13] = .resolved st2 v) ∧
    (∃ st3, processBytes { sampleState with currentLine := [32] } [13] =
        .cont st3 ∧
      st3.output = ({ sampleState with currentLine := [32] } :
        EditState).output ++ [.promptRedisplay] ∧
      (processBytes { sampleState with currentLine := [32] } [13]).result =
        none) :=
  ⟨((c1_submit.1 sampleState).1).mpr
      (Or.inl ⟨97, by simp [sampleState], by decide⟩),
   (c1_submit.1 _).2.2 (by decide) (by decide)⟩

/-! ## Claim C3 -/

/-- C3: A CR byte immediately followed by an LF byte in the same chunk
is decoded as one logical Enter keystroke: the pair behaves exactly like a
lone CR after which scanning resumes at the bytes after the LF (first
conjunct), and a lone CR appends exactly one `Submit` event (second
conjunct) — so no separate `NewLine` event arises from the consumed LF.
An LF not preceded by CR yields a `NewLine` event: the current line is
committed, a new empty line starts, and nothing is submitted (third
conjunct). -/
theorem c3_crlf_one_submit :
    (∀ (st : EditState) (rest : List Nat),
      processBytes st (13 :: 10 :: rest) = processChunks st [[13], rest]) ∧
    (∀ st : EditState,
      (processBytes st [13]).state.events = st.events ++ [.submit]) ∧
    (∀ (st : EditState) (rest : List Nat),
      ∃ st2, processBytes st (10 :: rest) = processBytes st2 rest ∧
        st2.events = st.events ++ [.newLine] ∧
        st2.inputBuffer = commitLine st ∧
        st2.currentLine = [] ∧ st2.cursorPos = 0) := by
  refine ⟨?_, ?_, ?_⟩
  · intro st rest
    rw [processBytes_cr, processChunks_cons]
    by_cases hres : jsTrim (submitBuffer st) ≠ []
    · rw [if_pos hres]
      have h13 : processBytes st [13] =
          .resolved (submitResolve st) (jsTrim (submitBuffer st)) := by
        rw [processBytes_cr_single, if_pos hres]
      rw [h13]
    · rw [if_neg hres]
      have h13 : processBytes st [13] = .cont (submitAbsorb st) := by
        rw [processBytes_cr_single, if_neg hres]
      have hhead : (if (10 :: rest).head? = some 10 then (10 :: rest).tail
          else 10 :: rest) = rest := by simp
      rw [hhead, h13]
      show processBytes (submitAbsorb st) rest =
        processChunks (submitAbsorb st) [rest]
      rw [processChunks_single]
  · intro st
    rw [processBytes_cr_single]
    split
    · simp [Outcome.state, submitResolve]
    · simp [Outcome.state, submitAbsorb]
  · intro st rest
    exact ⟨newLineApply st, processBytes_lf st rest,
      by simp [newLineApply], rfl, rfl, rfl⟩

/-! ## Claim C2 -/

/-- C2: An ESC byte (27) that is not followed within the same chunk
by `[` and then one of `A`/`B`/`C`/`D` produces no `InputEvent` and no
error: the bytes the decoder groups with the ESC (the ESC alone, or the
three bytes `ESC [ key` when two more bytes remain and the next is `[`)
are silently dropped with the state unchanged — in particular nothing is
inserted into the buffer by that sequence — and decoding continues at the
first ungrouped byte. -/
theorem c2_esc_nonmatching_dropped (st : EditState) (rest : List Nat)
    (h : ¬(2 ≤ rest.length ∧ rest.getD 0 0 = 91 ∧
           (rest.getD 1 0 = 65 ∨ rest.getD 1 0 = 66 ∨
            rest.getD 1 0 = 67 ∨ rest.getD 1 0 = 68))) :
    processBytes st (27 :: rest) =
      processBytes st
        (if 2 ≤ rest.length ∧ rest.getD 0 0 = 91 then rest.drop 2
         else rest) := by
  rw [processBytes_esc]
  by_cases hm : 2 ≤ rest.length ∧ rest.getD 0 0 = 91
  · rw [if_pos hm, if_pos hm]
    have hk : ¬(rest.getD 1 0 = 65 ∨ rest.getD 1 0 = 66 ∨
        rest.getD 1 0 = 67 ∨ rest.getD 1 0 = 68) := fun hor =>
      h ⟨hm.1, hm.2, hor⟩
    push_neg at hk
    rw [if_neg hk.2.2.2, if_neg hk.2.2.1, if_neg hk.1, if_neg hk.2.1]
  · rw [if_neg hm, if_neg hm]

/-- Witness for C2: the chunk `ESC [ E` — `[` follows the ESC but the key
`E` is not a recognized arrow, so all three bytes are dropped. -/
theorem c2_witness :
    processBytes sampleState (27 :: [91, 69]) =
      processBytes sampleState
        (if 2 ≤ ([91, 69] : List Nat).length ∧
            ([91, 69] : List Nat).getD 0 0 = 91
         then ([91, 69] : List Nat).drop 2 else [91, 69]) :=
  c2_esc_nonmatching_dropped sampleState [91, 69] (by decide)

/-! ## Claim C8 -/

/-- C8 counterexample: The chunk `ESC [ 0x03 a` contains byte 3, yet
no `Cancel` is produced: the 3 is consumed as the key of the preceding
`ESC [` sequence, the process does not exit, nothing resolves, raw mode
stays on, and the later byte `a` still produces an insertion — so
decoding of the bytes after the 3 was not abandoned. -/
theorem c8_counterexample :
    (processBytes (freshState false) [27, 91, 3, 97]).isExited = false ∧
    (processBytes (freshState false) [27, 91, 3, 97]).result = none ∧
    InputEvent.cancel ∉
      (processBytes (freshState false) [27, 91, 3, 97]).state.events ∧
    (processBytes (freshState false) [27, 91, 3, 97]).state.currentLine =
      [97] ∧
    (processBytes (freshState false) [27, 91, 3, 97]).state.rawMode =
      true := by
  simp [processBytes, freshState, insertApply, Outcome.isExited,
    Outcome.result, Outcome.state]

/-- C8 amended: Whenever a byte 3 (Ctrl+C) is reached by the
decoder as the start of a decoding unit — i.e. it is not consumed as the
key byte of a preceding `ESC [` sequence and no earlier byte of the chunk
already resolved or exited the read — a `Cancel` is produced and decoding
of the remainder of that chunk is abandoned: the outcome is the same
whatever bytes follow the 3 (so no later byte produces any event, buffer
change, or repaint), and raw mode is restored to the saved original
before anything further could be processed. -/
theorem c8_cancel_abandons_chunk (st : EditState) (rest : List Nat) :
    processBytes st (3 :: rest) = processBytes st [3] ∧
    processBytes st [3] = .exited (cancelApply st) ∧
    (cancelApply st).rawMode = st.originalRaw ∧
    (cancelApply st).events = st.events ++ [.cancel] ∧
    (cancelApply st).currentLine = st.currentLine ∧
    (cancelApply st).inputBuffer = st.inputBuffer ∧
    (cancelApply st).output = st.output := by
  refine ⟨?_, processBytes_cancel st [], rfl, rfl, rfl, rfl, rfl⟩
  rw [processBytes_cancel, processBytes_cancel]

/-! ## Claim C10 -/

theorem resolved_shape_aux :
    ∀ (n : Nat) (l : List Nat) (st st2 : EditState) (v : List Nat),
      l.length ≤ n → processBytes st l = .resolved st2 v →
      v ≠ [] ∧ jsTrim v = v ∧ ∃ c ∈ v, isJsWs c = false := by
  intro n
  induction n with
  | zero =>
    intro l st st2 v hl h
    obtain rfl : l = [] := List.eq_nil_of_length_eq_zero (Nat.le_zero.mp hl)
    rw [processBytes_nil] at h
    exact Outcome.noConfusion h
  | succ n ih =>
    intro l st st2 v hl h
    rcases l with _ | ⟨c, rest⟩
    · rw [processBytes_nil] at h
      exact Outcome.noConfusion h
    · replace hl : rest.length ≤ n := by
        simpa [Nat.succ_le_succ_iff] using hl
      by_cases h3 : c = 3
      · subst h3
        rw [processBytes_cancel] at h
        exact Outcome.noConfusion h
      by_cases h13 : c = 13
      · subst h13
        rw [processBytes_cr] at h
        by_cases hres : jsTrim (submitBuffer st) ≠ []
        · rw [if_pos hres] at h
          injection h with _ h2
          subst h2
          exact ⟨hres, jsTrim_idem _, jsTrim_exists_nonWs hres⟩
        · rw [if_neg hres] at h
          refine ih _ _ _ _ ?_ h
          have htail : (if rest.head? = some 10 then rest.tail
              else rest).length ≤ rest.length := by
            split
            · cases rest
              all_goals simp
            · exact Nat.le_refl _
          omega
      by_cases h10 : c = 10
      · subst h10
        rw [processBytes_lf] at h
        exact ih _ _ _ _ hl h
      by_cases hbs : c = 8 ∨ c = 127
      · rw [processBytes_backspace st hbs] at h
        exact ih _ _ _ _ hl h
      by_cases hpr : 32 ≤ c ∧ c ≤ 126
      · rw [processBytes_insert st hpr.1 hpr.2] at h
        exact ih _ _ _ _ hl h
      by_cases h27 : c = 27
      · subst h27
        rw [processBytes_esc] at h
        have hdrop : (rest.drop 2).length ≤ n := by
          simp only [List.length_drop]
          omega
        split at h
        · split at h
          · exact ih _ _ _ _ hdrop h
          · split at h
            · exact ih _ _ _ _ hdrop h
            · split at h
              · exact ih _ _ _ _ hdrop h
              · split at h
                · exact ih _ _ _ _ hdrop h
                · exact ih _ _ _ _ hdrop h
        · exact ih _ _ _ _ hl h
      · rw [processBytes_other st h3 h13 h10 hbs hpr h27] at h
        exact ih _ _ _ _ hl h

theorem resolved_shape_chunks :
    ∀ (chunks : List (List Nat)) (st st2 : EditState) (v : List Nat),
      processChunks st chunks = .resolved st2 v →
      v ≠ [] ∧ jsTrim v = v ∧ ∃ c ∈ v, isJsWs c = false := by
  intro chunks
  induction chunks with
  | nil =>
    intro st st2 v h
    rw [processChunks_nil] at h
    exact Outcome.noConfusion h
  | cons chunk chunks ih =>
    intro st st2 v h
    rw [processChunks_cons] at h
    rcases hout : processBytes st chunk with st' | ⟨st', v'⟩ | st'
    · simp only [hout] at h
      exact ih _ _ _ h
    · simp only [hout] at h
      injection h with h1 h2
      subst h2
      exact resolved_shape_aux chunk.length chunk st st' v'
        (Nat.le_refl _) hout
    · simp only [hout] at h
      exact Outcome.noConfusion h

theorem Outcome.result_eq_some {o : Outcome} {v : List Nat}
    (h : o.result = some v) : ∃ st2, o = .resolved st2 v := by
  cases o with
  | cont st => simp [Outcome.result] at h
  | resolved st2 v' =>
    simp only [Outcome.result, Option.some.injEq] at h
    exact ⟨st2, by rw [h]⟩
  | exited st => simp [Outcome.result] at h

/-- C10: Whenever the read of `getMultiLineInput` resolves with a
value (rather than exiting on cancellation or still listening), the
returned code-unit string contains at least one non-whitespace character
and equals its own trim — a blank or empty string can never be returned
to the caller, for every possible input byte sequence. -/
theorem c10_resolved_trimmed_nonblank (orig : Bool)
    (chunks : List (List Nat)) (v : List Nat)
    (h : (processChunks (freshState orig) chunks).result = some v) :
    v ≠ [] ∧ jsTrim v = v ∧ ∃ c ∈ v, isJsWs c = false := by
  obtain ⟨st2, h2⟩ := Outcome.result_eq_some h
  exact resolved_shape_chunks chunks _ st2 v h2

/-- Witness for C10: the chunk `"Hi"` + CR resolves with `"Hi"`. -/
theorem c10_witness :
    ([72, 105] : List Nat) ≠ [] ∧ jsTrim [72, 105] = [72, 105] ∧
    ∃ c ∈ ([72, 105] : List Nat), isJsWs c = false :=
  c10_resolved_trimmed_nonblank false [[72, 105, 13]] [72, 105]
    (by simp [processChunks, processBytes, freshState, insertApply,
      submitBuffer, commitLine, submitResolve, jsTrim, jsTrimLeft, isJsWs,
      Outcome.result])

/-! ## Claim C6 -/

theorem menuUpIdx_lt {n i : Nat} (hn : 0 < n) (hi : i < n) :
    menuUpIdx n i < n := by
  unfold menuUpIdx
  split
  · omega
  · omega

theorem menuDownIdx_lt {n i : Nat} (hn : 0 < n) (hi : i < n) :
    menuDownIdx n i < n := by
  unfold menuDownIdx
  split
  · omega
  · omega

theorem menuDownIdx_menuUpIdx {n i : Nat} (hn : 0 < n) (hi : i < n) :
    menuDownIdx n (menuUpIdx n i) = i := by
  unfold menuUpIdx menuDownIdx
  split
  · split
    · omega
    · omega
  · split
    · omega
    · omega

theorem menuUpIdx_iterate_lt {n : Nat} (hn : 0 < n) :
    ∀ (k i : Nat), i < n → (menuUpIdx n)^[k] i < n := by
  intro k
  induction k with
  | zero =>
    intro i hi
    simpa using hi
  | succ k ih =>
    intro i hi
    rw [Function.iterate_succ_apply']
    exact menuUpIdx_lt hn (ih i hi)

/-- C6: For a menu of `n ≥ 1` options, `MenuUp` (chunk `ESC [ A`) and
`MenuDown` (chunk `ESC [ B`) update `selectedIndex` to
`(selectedIndex - 1 + n) mod n` and `(selectedIndex + 1) mod n`
respectively, so `selectedIndex` always stays in `[0, n)` with circular
wraparound; for every `k` and every starting index, `MenuUp` applied `k`
times then `MenuDown` applied `k` times returns `selectedIndex` to its
original value; and on the two-option file-mode menu the event sequence
MenuDown, MenuDown, MenuConfirm selects the first option's key `"1"`. -/
theorem c6_menu_wraparound :
    (∀ (opts : List MenuOption) (i : Nat), 0 < opts.length →
      i < opts.length →
      menuKey opts i [27, 91, 65] = .keep (menuUpIdx opts.length i) ∧
      menuKey opts i [27, 91, 66] = .keep (menuDownIdx opts.length i) ∧
      ((menuUpIdx opts.length i : Int) =
        ((i : Int) - 1 + opts.length) % opts.length) ∧
      ((menuDownIdx opts.length i : Int) =
        ((i : Int) + 1) % opts.length) ∧
      menuUpIdx opts.length i < opts.length ∧
      menuDownIdx opts.length i < opts.length) ∧
    (∀ (n k i : Nat), 0 < n → i < n →
      (menuDownIdx n)^[k] ((menuUpIdx n)^[k] i) = i) ∧
    menuRun fileModeOptions 0 [[27, 91, 66], [27, 91, 66], [13]] =
      some (strCodes "1") := by
  refine ⟨?_, ?_, ?_⟩
  · intro opts i hn hi
    refine ⟨rfl, rfl, ?_, ?_, menuUpIdx_lt hn hi, menuDownIdx_lt hn hi⟩
    · unfold menuUpIdx
      split
      · rw [show ((i : Int) - 1 + opts.length) =
              ((i : Int) - 1 + (opts.length : Int) * 1) by ring,
            Int.add_mul_emod_self_left,
            Int.emod_eq_of_lt (by omega) (by omega)]
        omega
      · rw [Int.emod_eq_of_lt (by omega) (by omega)]
        omega
    · unfold menuDownIdx
      split
      · rw [Int.emod_eq_of_lt (by omega) (by omega)]
        omega
      · rw [show ((i : Int) + 1) = (opts.length : Int) by omega,
            Int.emod_self]
        omega
  · intro n k i hn hi
    induction k generalizing i with
    | zero => simp
    | succ k ih =>
      rw [Function.iterate_succ_apply' (menuUpIdx n),
          Function.iterate_succ_apply (menuDownIdx n),
          menuDownIdx_menuUpIdx hn (menuUpIdx_iterate_lt hn k i hi)]
      exact ih i hi
  · rfl

/-- Witness for C6: the wraparound-inverse part at `n = 2`, `k = 3`,
starting index 1, and the update equations on the concrete file-mode
menu at index 1. -/
theorem c6_witness :
    (menuKey fileModeOptions 1 [27, 91, 65] =
        .keep (menuUpIdx fileModeOptions.length 1) ∧
      menuKey fileModeOptions 1 [27, 91, 66] =
        .keep (menuDownIdx fileModeOptions.length 1) ∧
      ((menuUpIdx fileModeOptions.length 1 : Int) =
        ((1 : Int) - 1 + fileModeOptions.length) % fileModeOptions.length) ∧
      ((menuDownIdx fileModeOptions.length 1 : Int) =
        ((1 : Int) + 1) % fileModeOptions.length) ∧
      menuUpIdx fileModeOptions.length 1 < fileModeOptions.length ∧
      menuDownIdx fileModeOptions.length 1 < fileModeOptions.length) ∧
    (menuDownIdx 2)^[3] ((menuUpIdx 2)^[3] 1) = 1 :=
  ⟨c6_menu_wraparound.1 fileModeOptions 1 (by decide) (by decide),
   c6_menu_wraparound.2.1 2 3 1 (by decide) (by decide)⟩

/-! ## Claim C7 -/

/-- C7: For every current `selectedIndex` and every digit `d` with
`1 ≤ d ≤ n` (`n` the number of options of the file-mode menu), the direct
shortcut — the chunk holding the single digit character of `d`
(code `48 + d`) — immediately resolves the menu selection with
`options[d-1].key`, bypassing `selectedIndex` entirely. -/
theorem c7_menu_direct (i d : Nat) (h1 : 1 ≤ d)
    (h2 : d ≤ fileModeOptions.length) :
    menuKey fileModeOptions i [48 + d] =
      .chosen ((fileModeOptions.getD (d - 1)
        { key := [], label := [], description := [] }).key) := by
  have hlen : fileModeOptions.length = 2 := rfl
  rw [hlen] at h2
  have hd : d = 1 ∨ d = 2 := by omega
  rcases hd with rfl | rfl
  · rfl
  · rfl

/-- Witness for C7: with the menu highlight on index 5 (an arbitrary
value), typing `"2"` selects the second option's key `"2"`. -/
theorem c7_witness :
    menuKey fileModeOptions 5 [48 + 2] =
      .chosen ((fileModeOptions.getD (2 - 1)
        { key := [], label := [], description := [] }).key) :=
  c7_menu_direct 5 2 (by decide) (by decide)

end Brahma
